import Mathlib

/-!
# Tetris Stack: the circular queue of upcoming pieces

A shallow embedding of `src/tetris.c` and a verification of the properties its
specification states about it.

Modelling conventions.

* The C type `int` is the 32-bit two's-complement integer of the usual targets.
  A value of type `int` is an `Int`; the result of every `+ 1` / `- 1` the
  source performs goes through `wrapInt`, which reduces it modulo `2 ^ 32` into
  `[INT_MIN, INT_MAX]`.
* The C operator `%` truncates towards zero: it is `Int.tmod`.
* The array `pecas[TAMANHO_FILA]` is a function on `Fin TAMANHO_FILA`.  An access
  `pecas[i]` with `i` outside `0 .. TAMANHO_FILA - 1` has no defined behaviour in
  C; the functions that perform such an access return `none` there.
* `inicializarFila` does not write the array, so it takes the previous (arbitrary)
  contents of the structure as its argument.
* `rand()` is an input: every function that draws a kind takes the drawn number.
* Console output is returned as a value (the pieces printed), input and screen
  handling are left out.
-/

namespace Tetris

/-! ## Machine integers -/

/-- Largest value of the C type `int`. -/
def INT_MAX : Int := 2147483647

/-- Smallest value of the C type `int`. -/
def INT_MIN : Int := -2147483648

/-- Reduction of a mathematical integer into the range of `int`, modulo `2 ^ 32`. -/
def wrapInt (x : Int) : Int := (x + 2147483648) % 4294967296 - 2147483648

/-! ## Constants and data model (tetris.c, lines 15-35) -/

/-- Capacity of the queue, `#define TAMANHO_FILA 5`. -/
abbrev TAMANHO_FILA : Nat := 5

/-- Number of piece kinds, `#define TIPOS_PECAS 4`. -/
abbrev TIPOS_PECAS : Nat := 4

/-- Record `Peca`: a kind and an identifier. -/
structure Peca where
  nome : Char
  id : Int
deriving DecidableEq, Repr

/-- Record `FilaPecas`: the circular buffer with its three `int` fields. -/
structure FilaPecas where
  pecas : Fin TAMANHO_FILA → Peca
  frente : Int
  tras : Int
  quantidade : Int

/-- Bounds check of an array access `pecas[i]`: the slot addressed by the `int` index `i`,
or `none` when `i` is outside the array. -/
def slot (i : Int) : Option (Fin TAMANHO_FILA) :=
  if h : 0 ≤ i ∧ i < (TAMANHO_FILA : Int) then some ⟨i.toNat, by omega⟩ else none

/-! ## Queue functions (tetris.c, lines 73-171) -/

/-- Function `inicializarFila`: resets the three indices, leaves the array as it was. -/
def inicializarFila (fila : FilaPecas) : FilaPecas :=
  { pecas := fila.pecas, frente := 0, tras := -1, quantidade := 0 }

/-- Function `filaVazia`: the C truth value of `quantidade == 0`. -/
def filaVazia (fila : FilaPecas) : Int :=
  if fila.quantidade = 0 then 1 else 0

/-- Function `filaCheia`: the C truth value of `quantidade == TAMANHO_FILA`. -/
def filaCheia (fila : FilaPecas) : Int :=
  if fila.quantidade = (TAMANHO_FILA : Int) then 1 else 0

/-- The array `tiposPecas` local to `gerarPeca`. -/
def tiposPecas : Fin TIPOS_PECAS → Char := ![ 'I', 'O', 'T', 'L']

/-- Function `gerarPeca`: `r` is the value returned by `rand()`, `proximoId` the global
counter before the call; the result is the new piece and the counter after the call. -/
def gerarPeca (r : Nat) (proximoId : Int) : Peca × Int :=
  ({ nome := tiposPecas ⟨r % TIPOS_PECAS, Nat.mod_lt r (by decide)⟩, id := proximoId },
    wrapInt (proximoId + 1))

/-- Function `enfileirar`: the queue after the call and the value returned. -/
def enfileirar (fila : FilaPecas) (peca : Peca) : Option (FilaPecas × Int) :=
  if filaCheia fila ≠ 0 then some (fila, 0)
  else
    let tras := Int.tmod (wrapInt (fila.tras + 1)) (TAMANHO_FILA : Int)
    match slot tras with
    | none => none
    | some k =>
      some ({ pecas := Function.update fila.pecas k peca
              frente := fila.frente
              tras := tras
              quantidade := wrapInt (fila.quantidade + 1) }, 1)

/-- Function `desenfileirar`: `pecaRemovida` is the content of the output parameter before
the call; the result is the queue after the call, the content of the output parameter after
the call, and the value returned. -/
def desenfileirar (fila : FilaPecas) (pecaRemovida : Peca) : Option (FilaPecas × Peca × Int) :=
  if filaVazia fila ≠ 0 then some (fila, pecaRemovida, 0)
  else
    match slot fila.frente with
    | none => none
    | some k =>
      some ({ pecas := fila.pecas
              frente := Int.tmod (wrapInt (fila.frente + 1)) (TAMANHO_FILA : Int)
              tras := fila.tras
              quantidade := wrapInt (fila.quantidade - 1) }, fila.pecas k, 1)

/-- The `for` loop of `exibirFila`: `n` iterations remain, `indice` is the current index;
the result is the list of pieces printed. -/
def exibirFilaLoop (pecas : Fin TAMANHO_FILA → Peca) : Nat → Int → Option (List Peca)
  | 0, _ => some []
  | n + 1, indice =>
    match slot indice with
    | none => none
    | some k =>
      match exibirFilaLoop pecas n (Int.tmod (wrapInt (indice + 1)) (TAMANHO_FILA : Int)) with
      | none => none
      | some resto => some (pecas k :: resto)

/-- Function `exibirFila`: the pieces printed, front first. The loop `i < quantidade` runs
`quantidade.toNat` times. -/
def exibirFila (fila : FilaPecas) : Option (List Peca) :=
  if filaVazia fila ≠ 0 then some []
  else exibirFilaLoop fila.pecas fila.quantidade.toNat fila.frente

/-! ## Session functions (tetris.c, lines 174-247) -/

/-- The `for` loop of `preencherFilaInicial` from iteration `i` on, `n` iterations remain.
`rand i` is the number drawn in iteration `i`. The result is the queue, the counter, and for
each iteration the piece printed together with the value `enfileirar` returned (which the
source discards). -/
def preencherFilaInicialLoop (rand : Nat → Nat) :
    Nat → Nat → FilaPecas → Int → Option (FilaPecas × Int × List (Peca × Int))
  | 0, _, fila, proximoId => some (fila, proximoId, [])
  | n + 1, i, fila, proximoId =>
    let novaPeca := gerarPeca (rand i) proximoId
    match enfileirar fila novaPeca.1 with
    | none => none
    | some (fila1, ret) =>
      match preencherFilaInicialLoop rand n (i + 1) fila1 novaPeca.2 with
      | none => none
      | some (fila2, proximoId2, registo) => some (fila2, proximoId2, (novaPeca.1, ret) :: registo)

/-- Function `preencherFilaInicial`. -/
def preencherFilaInicial (rand : Nat → Nat) (fila : FilaPecas) (proximoId : Int) :
    Option (FilaPecas × Int × List (Peca × Int)) :=
  preencherFilaInicialLoop rand TAMANHO_FILA 0 fila proximoId

/-- Function `jogarPeca`: `pecaJogada` is the initial content of the local variable. The
result is the queue after the call, the piece reported as played (if any) and the pieces
printed by the closing `exibirFila`. -/
def jogarPeca (fila : FilaPecas) (pecaJogada : Peca) :
    Option (FilaPecas × Option Peca × List Peca) :=
  match desenfileirar fila pecaJogada with
  | none => none
  | some (fila1, saida, ret) =>
    match exibirFila fila1 with
    | none => none
    | some mostradas => some (fila1, if ret ≠ 0 then some saida else none, mostradas)

/-- Function `inserirNovaPeca`: `r` is the number `rand()` returns if it is called. The result
is the queue and the counter after the call, the piece reported as generated (if any) and the
pieces printed by the closing `exibirFila`. -/
def inserirNovaPeca (r : Nat) (fila : FilaPecas) (proximoId : Int) :
    Option (FilaPecas × Int × Option Peca × List Peca) :=
  if filaCheia fila ≠ 0 then
    match exibirFila fila with
    | none => none
    | some mostradas => some (fila, proximoId, none, mostradas)
  else
    let novaPeca := gerarPeca r proximoId
    match enfileirar fila novaPeca.1 with
    | none => none
    | some (fila1, _) =>
      match exibirFila fila1 with
      | none => none
      | some mostradas => some (fila1, novaPeca.2, some novaPeca.1, mostradas)

/-! ## Sequences of calls -/

/-- One call on the queue: `enfileirar` with a piece, or `desenfileirar` with the previous
content of the caller's output variable. -/
inductive Op where
  | enq (peca : Peca)
  | deq (saida : Peca)

/-- The queue after one call and the value the call returns. -/
def aplicar (fila : FilaPecas) : Op → Option (FilaPecas × Int)
  | Op.enq peca => enfileirar fila peca
  | Op.deq saida =>
    match desenfileirar fila saida with
    | none => none
    | some (fila1, _, ret) => some (fila1, ret)

/-- The queue after a sequence of calls and the values the calls return, in order. -/
def executar : FilaPecas → List Op → Option (FilaPecas × List Int)
  | fila, [] => some (fila, [])
  | fila, op :: ops =>
    match aplicar fila op with
    | none => none
    | some (fila1, ret) =>
      match executar fila1 ops with
      | none => none
      | some (fila2, rets) => some (fila2, ret :: rets)

/-- The queue a sequence of calls leaves (the queue itself where the sequence has no defined
behaviour). -/
def depois (fila : FilaPecas) (ops : List Op) : FilaPecas :=
  match executar fila ops with
  | some (fila1, _) => fila1
  | none => fila

/-- Number of `enfileirar` calls of a sequence that returned 1. -/
def enfileiradas : List Op → List Int → Nat
  | Op.enq _ :: ops, ret :: rets => (if ret = 1 then 1 else 0) + enfileiradas ops rets
  | Op.deq _ :: ops, _ :: rets => enfileiradas ops rets
  | _, _ => 0

/-- Number of `desenfileirar` calls of a sequence that returned 1. -/
def desenfileiradas : List Op → List Int → Nat
  | Op.deq _ :: ops, ret :: rets => (if ret = 1 then 1 else 0) + desenfileiradas ops rets
  | Op.enq _ :: ops, _ :: rets => desenfileiradas ops rets
  | _, _ => 0

/-- Successive calls `enfileirar(p1) .. enfileirar(pN)`: the final queue and the values
returned. -/
def enfileirarTodas : FilaPecas → List Peca → Option (FilaPecas × List Int)
  | fila, [] => some (fila, [])
  | fila, peca :: pecas =>
    match enfileirar fila peca with
    | none => none
    | some (fila1, ret) =>
      match enfileirarTodas fila1 pecas with
      | none => none
      | some (fila2, rets) => some (fila2, ret :: rets)

/-- `n` successive calls of `desenfileirar` on the same output variable, whose content is
`saida` at the start: the final queue and, for each call, the value returned and the content
of the output variable after it. -/
def desenfileirarVezes : Nat → FilaPecas → Peca → Option (FilaPecas × List (Int × Peca))
  | 0, fila, _ => some (fila, [])
  | n + 1, fila, saida =>
    match desenfileirar fila saida with
    | none => none
    | some (fila1, saida1, ret) =>
      match desenfileirarVezes n fila1 saida1 with
      | none => none
      | some (fila2, resto) => some (fila2, (ret, saida1) :: resto)

/-- Queues reachable from `inicializarFila` by calls of `enfileirar` and `desenfileirar`. -/
inductive Alcancavel : FilaPecas → Prop where
  | inicial (f0 : FilaPecas) : Alcancavel (inicializarFila f0)
  | aposEnfileirar {f f1 : FilaPecas} {p : Peca} {r : Int} :
      Alcancavel f → enfileirar f p = some (f1, r) → Alcancavel f1
  | aposDesenfileirar {f f1 : FilaPecas} {s s1 : Peca} {r : Int} :
      Alcancavel f → desenfileirar f s = some (f1, s1, r) → Alcancavel f1

/-! ## The program state: the queue and the global counter -/

/-- The mutable state of the program: the queue of `main` and the global `proximoId`. -/
structure Estado where
  fila : FilaPecas
  proximoId : Int

/-- One call in the program: `gerarPeca` (with the number `rand()` returns) or a call on the
queue. -/
inductive Acao where
  | gerar (r : Nat)
  | naFila (op : Op)

/-- What a call yields: the piece `gerarPeca` returns, or the value a queue call returns. -/
inductive Evento where
  | gerada (peca : Peca)
  | retorno (ret : Int)

/-- One call on the program state. `gerarPeca` reads and writes only `proximoId`; the queue
functions read and write only the queue they are given. -/
def passo (e : Estado) : Acao → Option (Estado × Evento)
  | Acao.gerar r =>
    let nova := gerarPeca r e.proximoId
    some ({ fila := e.fila, proximoId := nova.2 }, Evento.gerada nova.1)
  | Acao.naFila op =>
    match aplicar e.fila op with
    | none => none
    | some (fila1, ret) => some ({ fila := fila1, proximoId := e.proximoId }, Evento.retorno ret)

/-- A sequence of calls on the program state, with what each call yields. -/
def executarAcoes : Estado → List Acao → Option (Estado × List Evento)
  | e, [] => some (e, [])
  | e, a :: acoes =>
    match passo e a with
    | none => none
    | some (e1, ev) =>
      match executarAcoes e1 acoes with
      | none => none
      | some (e2, evs) => some (e2, ev :: evs)

/-- The identifiers of the pieces created, in order of creation. -/
def idsGerados : List Evento → List Int
  | [] => []
  | Evento.gerada peca :: evs => peca.id :: idsGerados evs
  | Evento.retorno _ :: evs => idsGerados evs

/-- Number of `gerarPeca` calls in a sequence. -/
def chamadasGerar : List Acao → Nat
  | [] => 0
  | Acao.gerar _ :: acoes => chamadasGerar acoes + 1
  | Acao.naFila _ :: acoes => chamadasGerar acoes

/-! ## Index consistency and content -/

/-- Index consistency of a queue. -/
structure Consistente (f : FilaPecas) : Prop where
  frente_min : 0 ≤ f.frente
  frente_max : f.frente ≤ 4
  tras_min : -1 ≤ f.tras
  tras_max : f.tras ≤ 4
  quantidade_min : 0 ≤ f.quantidade
  quantidade_max : f.quantidade ≤ 5
  cauda : (f.tras + 1) % 5 = (f.frente + f.quantidade) % 5
  tras_ocupada : 0 < f.quantidade → 0 ≤ f.tras

/-- The `n` slots read circularly from index `i`. -/
def circular (pecas : Fin TAMANHO_FILA → Peca) (i n : Nat) : List Peca :=
  (List.range n).map (fun k => pecas ⟨(i + k) % TAMANHO_FILA, Nat.mod_lt _ (by decide)⟩)

/-- The `quantidade` pieces held, read circularly from `frente`. -/
def conteudo (f : FilaPecas) : List Peca :=
  circular f.pecas f.frente.toNat f.quantidade.toNat

/-- The pieces a bounded FIFO queue holds after a sequence of calls, as the specification
describes it: starting from the pieces `l`, an enqueue appends its piece when fewer than
`TAMANHO_FILA` pieces are held and is rejected otherwise, a dequeue removes the oldest piece
and is rejected when no piece is held; a rejected call changes nothing. -/
def filaEspecificada : List Peca → List Op → List Peca
  | l, [] => l
  | l, Op.enq peca :: ops =>
    filaEspecificada (if l.length < TAMANHO_FILA then l ++ [peca] else l) ops
  | l, Op.deq _ :: ops => filaEspecificada l.tail ops

/-! ## Concrete queues -/

/-- A queue as `main` declares it before `inicializarFila`: arbitrary content everywhere. -/
def filaBruta : FilaPecas :=
  { pecas := fun _ => { nome := 'T', id := 77 }, frente := 3, tras := 9, quantidade := 12 }

/-- A full queue. -/
def filaLotada : FilaPecas :=
  { pecas := fun k => { nome := 'O', id := k.val }, frente := 2, tras := 1, quantidade := 5 }

/-- An empty queue whose indices are not those of a fresh one. -/
def filaEsgotada : FilaPecas :=
  { pecas := fun k => { nome := 'L', id := k.val }, frente := 3, tras := 2, quantidade := 0 }

/-- Calls that take a fresh queue around the end of the array: four pieces in, three out,
three more in. -/
def opsVolta : List Op :=
  [Op.enq ⟨'I', 0⟩, Op.enq ⟨'O', 1⟩, Op.enq ⟨'T', 2⟩, Op.enq ⟨'L', 3⟩,
   Op.deq ⟨'I', 0⟩, Op.deq ⟨'I', 0⟩, Op.deq ⟨'I', 0⟩,
   Op.enq ⟨'I', 4⟩, Op.enq ⟨'O', 5⟩, Op.enq ⟨'T', 6⟩]

/-- The queue `opsVolta` leaves: `frente = 3`, `tras = 1`, four pieces with ids 3, 4, 5, 6. -/
def filaVolta : FilaPecas := depois (inicializarFila filaBruta) opsVolta

/-! ## The menu loop of `main` -/

/-- A valid menu choice other than leaving: 1 plays a piece (with the initial content of the
local variable `pecaJogada`), 2 inserts a piece (with the number `rand()` would return). -/
inductive Escolha where
  | jogar (pecaJogada : Peca)
  | inserir (r : Nat)

/-- One iteration of the loop of `main` on the program state, for choice 1 or 2. -/
def iteracao (e : Estado) : Escolha → Option Estado
  | Escolha.jogar pecaJogada =>
    match jogarPeca e.fila pecaJogada with
    | none => none
    | some (fila1, _, _) => some { fila := fila1, proximoId := e.proximoId }
  | Escolha.inserir r =>
    match inserirNovaPeca r e.fila e.proximoId with
    | none => none
    | some (fila1, proximoId1, _, _) => some { fila := fila1, proximoId := proximoId1 }

/-- Successive iterations of the loop of `main`. -/
def iteracoes : Estado → List Escolha → Option Estado
  | e, [] => some e
  | e, c :: cs =>
    match iteracao e c with
    | none => none
    | some e1 => iteracoes e1 cs

/-- Function `main` up to the point where the given choices have been served: `f0` is the
content of the local `fila` at its declaration, the global `proximoId` starts at 0, `rand`
gives the numbers drawn while the queue is filled. -/
def principal (f0 : FilaPecas) (rand : Nat → Nat) (escolhas : List Escolha) : Option Estado :=
  match preencherFilaInicial rand (inicializarFila f0) 0 with
  | none => none
  | some (fila1, proximoId1, _) => iteracoes { fila := fila1, proximoId := proximoId1 } escolhas

/-- The choices "play, then insert", `n` times over. -/
def jogarInserir : Nat → List Escolha
  | 0 => []
  | n + 1 => Escolha.jogar ⟨'I', 0⟩ :: Escolha.inserir 0 :: jogarInserir n

/-! ## Auxiliary results -/

theorem wrapInt_eq (x : Int) (h1 : -2147483648 ≤ x) (h2 : x ≤ 2147483647) : wrapInt x = x := by
  unfold wrapInt; omega

theorem slot_eq (i : Int) (h1 : 0 ≤ i) (h2 : i ≤ 4) :
    slot i = some ⟨i.toNat, by simp only [TAMANHO_FILA]; omega⟩ := by
  unfold slot
  rw [dif_pos]
  exact ⟨h1, by simp only [TAMANHO_FILA]; omega⟩

theorem avanca_eq (i : Int) (h1 : -1 ≤ i) (h2 : i ≤ 4) :
    Int.tmod (wrapInt (i + 1)) (TAMANHO_FILA : Int) = (i + 1) % 5 := by
  rw [wrapInt_eq _ (by omega) (by omega), Int.tmod_eq_emod (by omega) (by simp)]
  rfl

theorem circular_succ (pecas : Fin TAMANHO_FILA → Peca) (i n : Nat) :
    circular pecas i (n + 1)
      = pecas ⟨i % TAMANHO_FILA, Nat.mod_lt _ (by decide)⟩ :: circular pecas (i + 1) n := by
  simp only [circular, List.range_succ_eq_map, List.map_cons, List.map_map, Nat.add_zero]
  congr 1
  apply List.map_congr_left
  intro k _
  simp only [Function.comp]
  congr 2
  simp only [TAMANHO_FILA]
  omega

theorem circular_snoc (pecas : Fin TAMANHO_FILA → Peca) (i n : Nat) :
    circular pecas i (n + 1)
      = circular pecas i n ++ [pecas ⟨(i + n) % TAMANHO_FILA, Nat.mod_lt _ (by decide)⟩] := by
  simp [circular, List.range_succ]

theorem circular_mod (pecas : Fin TAMANHO_FILA → Peca) (i n : Nat) :
    circular pecas (i % TAMANHO_FILA) n = circular pecas i n := by
  simp only [circular]
  apply List.map_congr_left
  intro k _
  congr 1
  simp

theorem circular_length (pecas : Fin TAMANHO_FILA → Peca) (i n : Nat) :
    (circular pecas i n).length = n := by
  simp [circular]

theorem circular_update (pecas : Fin TAMANHO_FILA → Peca) (i n : Nat) (k : Fin TAMANHO_FILA)
    (p : Peca) (hn : n < TAMANHO_FILA) (hk : k.val = (i + n) % TAMANHO_FILA) :
    circular (Function.update pecas k p) i n = circular pecas i n := by
  simp only [circular]
  apply List.map_congr_left
  intro j hj
  rw [List.mem_range] at hj
  apply Function.update_noteq
  intro h
  have := congrArg Fin.val h
  simp only [TAMANHO_FILA] at this hk hn
  omega

theorem exibirFilaLoop_eq (pecas : Fin TAMANHO_FILA → Peca) (n : Nat) :
    ∀ i : Int, 0 ≤ i → i ≤ 4 → exibirFilaLoop pecas n i = some (circular pecas i.toNat n) := by
  induction n with
  | zero => intro i _ _; rfl
  | succ n ih =>
    intro i h1 h2
    rw [exibirFilaLoop, slot_eq i h1 h2, avanca_eq i (by omega) h2]
    simp only
    rw [ih ((i + 1) % 5) (by omega) (by omega), circular_succ]
    simp only
    congr 2
    · congr 1
      apply Fin.ext
      simp only [TAMANHO_FILA]
      omega
    · have : ((i + 1) % 5).toNat = (i.toNat + 1) % TAMANHO_FILA := by
        simp only [TAMANHO_FILA]; omega
      rw [this, circular_mod]

theorem filaCheia_eq (f : FilaPecas) : filaCheia f ≠ 0 ↔ f.quantidade = 5 := by
  unfold filaCheia
  split <;> simp_all

theorem filaCheia_sim (f : FilaPecas) (h : f.quantidade = 5) : filaCheia f = 1 := by
  simp [filaCheia, h]

theorem filaCheia_nao (f : FilaPecas) (h : f.quantidade ≠ 5) : filaCheia f = 0 := by
  simp [filaCheia, h]

theorem filaVazia_eq (f : FilaPecas) : filaVazia f ≠ 0 ↔ f.quantidade = 0 := by
  unfold filaVazia
  split <;> simp_all

theorem enfileirar_cheia (f : FilaPecas) (p : Peca) (h : f.quantidade = 5) :
    enfileirar f p = some (f, 0) := by
  unfold enfileirar
  rw [if_pos ((filaCheia_eq f).2 h)]

theorem desenfileirar_vazia (f : FilaPecas) (s : Peca) (h : f.quantidade = 0) :
    desenfileirar f s = some (f, s, 0) := by
  unfold desenfileirar
  rw [if_pos ((filaVazia_eq f).2 h)]

theorem consistente_inicial (f0 : FilaPecas) : Consistente (inicializarFila f0) := by
  constructor <;> simp [inicializarFila]

theorem conteudo_inicial (f0 : FilaPecas) : conteudo (inicializarFila f0) = [] := rfl

theorem exibirFila_eq (f : FilaPecas) (hc : Consistente f) :
    exibirFila f = some (conteudo f) := by
  unfold exibirFila
  by_cases h : f.quantidade = 0
  · rw [if_pos ((filaVazia_eq f).2 h)]
    simp [conteudo, h, circular]
  · rw [if_neg (fun hh => h ((filaVazia_eq f).1 hh))]
    exact exibirFilaLoop_eq f.pecas _ f.frente hc.frente_min hc.frente_max

theorem enfileirar_passo (f : FilaPecas) (p : Peca) (hc : Consistente f)
    (hq : f.quantidade ≠ 5) :
    ∃ f1 k, slot ((f.tras + 1) % 5) = some k ∧ enfileirar f p = some (f1, 1) ∧ Consistente f1 ∧
      f1.pecas = Function.update f.pecas k p ∧ f1.frente = f.frente ∧
      f1.tras = (f.tras + 1) % 5 ∧ f1.quantidade = f.quantidade + 1 ∧
      conteudo f1 = conteudo f ++ [p] := by
  have ⟨h1, h2, h3, h4, h5, h6, h7, h8⟩ := hc
  have hs := slot_eq ((f.tras + 1) % 5) (by omega) (by omega)
  refine ⟨{ pecas := Function.update f.pecas _ p, frente := f.frente, tras := (f.tras + 1) % 5,
            quantidade := f.quantidade + 1 }, _, hs, ?_, ?_, rfl, rfl, rfl, rfl, ?_⟩
  · unfold enfileirar
    rw [if_neg (fun hh => hq ((filaCheia_eq f).1 hh))]
    simp only
    rw [avanca_eq f.tras h3 h4, hs, wrapInt_eq _ (by omega) (by omega)]
  · constructor <;> simp only <;> intros <;> omega
  · simp only [conteudo]
    have hn : (f.quantidade + 1).toNat = f.quantidade.toNat + 1 := by omega
    rw [hn, circular_snoc, circular_update _ _ _ _ _ (by simp only [TAMANHO_FILA]; omega)
      (by simp only [TAMANHO_FILA]; omega)]
    congr 2
    have : (⟨(f.frente.toNat + f.quantidade.toNat) % TAMANHO_FILA, Nat.mod_lt _ (by decide)⟩ :
        Fin TAMANHO_FILA) = ⟨((f.tras + 1) % 5).toNat, by simp only [TAMANHO_FILA]; omega⟩ := by
      apply Fin.ext
      simp only [TAMANHO_FILA]
      omega
    rw [this, Function.update_same]

theorem desenfileirar_passo (f : FilaPecas) (s : Peca) (hc : Consistente f)
    (hq : f.quantidade ≠ 0) :
    ∃ f1 k, slot f.frente = some k ∧ desenfileirar f s = some (f1, f.pecas k, 1) ∧
      Consistente f1 ∧ f1.pecas = f.pecas ∧ f1.frente = (f.frente + 1) % 5 ∧
      f1.tras = f.tras ∧ f1.quantidade = f.quantidade - 1 ∧
      conteudo f = f.pecas k :: conteudo f1 := by
  have ⟨h1, h2, h3, h4, h5, h6, h7, h8⟩ := hc
  have hs := slot_eq f.frente h1 h2
  refine ⟨{ pecas := f.pecas, frente := (f.frente + 1) % 5, tras := f.tras,
            quantidade := f.quantidade - 1 }, _, hs, ?_, ?_, rfl, rfl, rfl, rfl, ?_⟩
  · unfold desenfileirar
    rw [if_neg (fun hh => hq ((filaVazia_eq f).1 hh))]
    rw [avanca_eq f.frente (by omega) h2, hs, wrapInt_eq _ (by omega) (by omega)]
  · constructor <;> simp only <;> intros <;> omega
  · simp only [conteudo]
    have hn : f.quantidade.toNat = (f.quantidade - 1).toNat + 1 := by omega
    have hf : ((f.frente + 1) % 5).toNat = (f.frente.toNat + 1) % TAMANHO_FILA := by
      simp only [TAMANHO_FILA]; omega
    rw [hn, circular_succ, hf, circular_mod]
    congr 2
    apply Fin.ext
    simp only [TAMANHO_FILA]
    omega

theorem alcancavel_consistente (f : FilaPecas) (h : Alcancavel f) : Consistente f := by
  induction h with
  | inicial f0 => exact consistente_inicial f0
  | @aposEnfileirar f f1 p r _ he ih =>
    by_cases hq : f.quantidade = 5
    · rw [enfileirar_cheia f p hq] at he
      cases he
      exact ih
    · obtain ⟨f2, k, _, he2, hc, _⟩ := enfileirar_passo f p ih hq
      rw [he2] at he
      cases he
      exact hc
  | @aposDesenfileirar f f1 s s1 r _ he ih =>
    by_cases hq : f.quantidade = 0
    · rw [desenfileirar_vazia f s hq] at he
      cases he
      exact ih
    · obtain ⟨f2, k, _, he2, hc, _⟩ := desenfileirar_passo f s ih hq
      rw [he2] at he
      cases he
      exact hc

theorem aplicar_consistente (f : FilaPecas) (op : Op) (hc : Consistente f) :
    ∃ f1 r, aplicar f op = some (f1, r) ∧ Consistente f1 ∧
      f1.quantidade + desenfileiradas [op] [r] = f.quantidade + enfileiradas [op] [r] := by
  cases op with
  | enq p =>
    by_cases hq : f.quantidade = 5
    · exact ⟨f, 0, enfileirar_cheia f p hq, hc, by simp [enfileiradas, desenfileiradas]⟩
    · obtain ⟨f1, k, _, he, hc1, _, _, _, hq1, _⟩ := enfileirar_passo f p hc hq
      exact ⟨f1, 1, he, hc1, by simp [enfileiradas, desenfileiradas, hq1]⟩
  | deq s =>
    by_cases hq : f.quantidade = 0
    · refine ⟨f, 0, ?_, hc, by simp [enfileiradas, desenfileiradas]⟩
      simp only [aplicar, desenfileirar_vazia f s hq]
    · obtain ⟨f1, k, _, he, hc1, _, _, _, hq1, _⟩ := desenfileirar_passo f s hc hq
      refine ⟨f1, 1, ?_, hc1, by simp [enfileiradas, desenfileiradas, hq1]⟩
      simp only [aplicar, he]

theorem executar_consistente (ops : List Op) :
    ∀ f : FilaPecas, Consistente f →
      ∃ f1 rs, executar f ops = some (f1, rs) ∧ Consistente f1 ∧ rs.length = ops.length ∧
        f1.quantidade + desenfileiradas ops rs = f.quantidade + enfileiradas ops rs := by
  induction ops with
  | nil =>
    intro f hc
    exact ⟨f, [], rfl, hc, rfl, by simp [enfileiradas, desenfileiradas]⟩
  | cons op ops ih =>
    intro f hc
    obtain ⟨f1, r, ha, hc1, hq1⟩ := aplicar_consistente f op hc
    obtain ⟨f2, rs, he, hc2, hl, hq2⟩ := ih f1 hc1
    refine ⟨f2, r :: rs, ?_, hc2, by simp [hl], ?_⟩
    · simp only [executar, ha, he]
    · cases op <;> simp only [enfileiradas, desenfileiradas, Nat.zero_add, Nat.add_zero,
        Nat.cast_add, Nat.cast_zero, Int.add_zero, Int.zero_add] at hq1 ⊢ <;> omega

theorem aplicar_alcancavel (f f1 : FilaPecas) (op : Op) (r : Int) (ha : Alcancavel f)
    (h : aplicar f op = some (f1, r)) : Alcancavel f1 := by
  cases op with
  | enq p => exact Alcancavel.aposEnfileirar ha h
  | deq s =>
    simp only [aplicar] at h
    split at h
    · cases h
    · next f2 s1 r1 hd =>
      cases h
      exact Alcancavel.aposDesenfileirar ha hd

theorem executar_alcancavel (ops : List Op) :
    ∀ (f f1 : FilaPecas) (rs : List Int), Alcancavel f → executar f ops = some (f1, rs) →
      Alcancavel f1 := by
  induction ops with
  | nil =>
    intro f f1 rs ha h
    simp only [executar, Option.some.injEq, Prod.mk.injEq] at h
    exact h.1 ▸ ha
  | cons op ops ih =>
    intro f f1 rs ha h
    simp only [executar] at h
    split at h
    · cases h
    · next f2 r hap =>
      split at h
      · cases h
      · next f3 rs3 hex =>
        cases h
        exact ih f2 _ rs3 (aplicar_alcancavel f f2 op r ha hap) hex

theorem depois_alcancavel (f : FilaPecas) (ops : List Op) (ha : Alcancavel f) :
    Alcancavel (depois f ops) := by
  unfold depois
  split
  · next f1 rs h => exact executar_alcancavel ops f f1 rs ha h
  · exact ha

theorem enfileirarTodas_consistente (ps : List Peca) :
    ∀ f : FilaPecas, Consistente f → f.quantidade + ps.length ≤ 5 →
      ∃ f1, enfileirarTodas f ps = some (f1, List.replicate ps.length 1) ∧ Consistente f1 ∧
        f1.quantidade = f.quantidade + ps.length ∧ conteudo f1 = conteudo f ++ ps := by
  induction ps with
  | nil =>
    intro f hc _
    exact ⟨f, rfl, hc, by simp, by simp⟩
  | cons p ps ih =>
    intro f hc hl
    simp only [List.length_cons, Nat.cast_add, Nat.cast_one] at hl
    obtain ⟨f1, k, _, he, hc1, _, _, _, hq1, hcont⟩ :=
      enfileirar_passo f p hc (by have := hc.quantidade_min; omega)
    obtain ⟨f2, he2, hc2, hq2, hcont2⟩ := ih f1 hc1 (by omega)
    refine ⟨f2, ?_, hc2, ?_, ?_⟩
    · simp only [enfileirarTodas, he, he2, List.length_cons, List.replicate_succ]
    · simp only [List.length_cons, Nat.cast_add, Nat.cast_one]; omega
    · rw [hcont2, hcont]; simp

theorem desenfileirarVezes_consistente (n : Nat) :
    ∀ (f : FilaPecas) (s : Peca), Consistente f → (n : Int) ≤ f.quantidade →
      ∃ f1, desenfileirarVezes n f s
          = some (f1, ((conteudo f).take n).map (fun p => ((1 : Int), p))) ∧
        Consistente f1 ∧ f1.quantidade = f.quantidade - n ∧
        conteudo f1 = (conteudo f).drop n := by
  induction n with
  | zero =>
    intro f s hc _
    exact ⟨f, rfl, hc, by simp, by simp⟩
  | succ n ih =>
    intro f s hc hl
    simp only [Nat.cast_add, Nat.cast_one] at hl
    obtain ⟨f1, k, _, he, hc1, _, _, _, hq1, hcont⟩ :=
      desenfileirar_passo f s hc (by omega)
    obtain ⟨f2, he2, hc2, hq2, hcont2⟩ := ih f1 (f.pecas k) hc1 (by omega)
    refine ⟨f2, ?_, hc2, ?_, ?_⟩
    · simp only [desenfileirarVezes, he, he2, hcont, List.take_succ_cons, List.map_cons]
    · simp only [Nat.cast_add, Nat.cast_one]; omega
    · rw [hcont2, hcont]; simp

theorem conteudo_length (f : FilaPecas) : (conteudo f).length = f.quantidade.toNat := by
  simp [conteudo, circular_length]

theorem executar_especificada (ops : List Op) :
    ∀ f : FilaPecas, Consistente f →
      ∃ f1 rs, executar f ops = some (f1, rs) ∧ Consistente f1 ∧
        conteudo f1 = filaEspecificada (conteudo f) ops := by
  induction ops with
  | nil =>
    intro f hc
    exact ⟨f, [], rfl, hc, rfl⟩
  | cons op ops ih =>
    intro f hc
    have hlen := conteudo_length f
    have hmin := hc.quantidade_min
    have hmax := hc.quantidade_max
    cases op with
    | enq p =>
      by_cases hq : f.quantidade = 5
      · obtain ⟨f2, rs, he, hc2, hcont⟩ := ih f hc
        refine ⟨f2, 0 :: rs, ?_, hc2, ?_⟩
        · simp only [executar, aplicar, enfileirar_cheia f p hq, he]
        · have hl : ¬ (conteudo f).length < TAMANHO_FILA := by
            simp only [TAMANHO_FILA]; omega
          simp only [filaEspecificada, if_neg hl, hcont]
      · obtain ⟨f1, k, _, he1, hc1, _, _, _, _, hcont1⟩ := enfileirar_passo f p hc hq
        obtain ⟨f2, rs, he, hc2, hcont⟩ := ih f1 hc1
        refine ⟨f2, 1 :: rs, ?_, hc2, ?_⟩
        · simp only [executar, aplicar, he1, he]
        · have hl : (conteudo f).length < TAMANHO_FILA := by
            simp only [TAMANHO_FILA]; omega
          simp only [filaEspecificada, if_pos hl, hcont, hcont1]
    | deq s =>
      by_cases hq : f.quantidade = 0
      · obtain ⟨f2, rs, he, hc2, hcont⟩ := ih f hc
        refine ⟨f2, 0 :: rs, ?_, hc2, ?_⟩
        · simp only [executar, aplicar, desenfileirar_vazia f s hq, he]
        · have hnil : conteudo f = [] := List.eq_nil_of_length_eq_zero (by omega)
          simp only [filaEspecificada, hcont, hnil, List.tail_nil]
      · obtain ⟨f1, k, _, he1, hc1, _, _, _, _, hcont1⟩ := desenfileirar_passo f s hc hq
        obtain ⟨f2, rs, he, hc2, hcont⟩ := ih f1 hc1
        refine ⟨f2, 1 :: rs, ?_, hc2, ?_⟩
        · simp only [executar, aplicar, he1, he]
        · simp only [filaEspecificada, hcont, hcont1, List.tail_cons]

theorem jogarPeca_passo (f : FilaPecas) (s : Peca) (hc : Consistente f)
    (hq : f.quantidade ≠ 0) :
    ∃ f1 p, jogarPeca f s = some (f1, some p, conteudo f1) ∧ conteudo f = p :: conteudo f1 ∧
      Consistente f1 ∧ f1.quantidade = f.quantidade - 1 := by
  obtain ⟨f1, k, _, he, hc1, _, _, _, hq1, hcont⟩ := desenfileirar_passo f s hc hq
  refine ⟨f1, f.pecas k, ?_, hcont, hc1, hq1⟩
  simp only [jogarPeca, he, exibirFila_eq f1 hc1]
  simp

theorem inserirNovaPeca_cheia (r : Nat) (f : FilaPecas) (c : Int) (hc : Consistente f)
    (hq : f.quantidade = 5) :
    inserirNovaPeca r f c = some (f, c, none, conteudo f) := by
  unfold inserirNovaPeca
  rw [if_pos ((filaCheia_eq f).2 hq), exibirFila_eq f hc]

theorem inserirNovaPeca_passo (r : Nat) (f : FilaPecas) (c : Int) (hc : Consistente f)
    (hq : f.quantidade ≠ 5) :
    ∃ f1, inserirNovaPeca r f c
        = some (f1, (gerarPeca r c).2, some (gerarPeca r c).1, conteudo f1) ∧
      conteudo f1 = conteudo f ++ [(gerarPeca r c).1] ∧ Consistente f1 ∧
      f1.quantidade = f.quantidade + 1 := by
  obtain ⟨f1, k, _, he, hc1, _, _, _, hq1, hcont⟩ :=
    enfileirar_passo f (gerarPeca r c).1 hc hq
  refine ⟨f1, ?_, hcont, hc1, hq1⟩
  unfold inserirNovaPeca
  rw [if_neg (fun hh => hq ((filaCheia_eq f).1 hh))]
  simp only [he, exibirFila_eq f1 hc1]

theorem gerarPeca_id (r : Nat) (c : Int) : (gerarPeca r c).1.id = c := rfl

theorem gerarPeca_contador (r : Nat) (c : Int) (h1 : -2147483648 ≤ c) (h2 : c < 2147483647) :
    (gerarPeca r c).2 = c + 1 := by
  simp only [gerarPeca]
  exact wrapInt_eq _ (by omega) (by omega)

theorem preencherFilaInicialLoop_consistente (rand : Nat → Nat) (n : Nat) :
    ∀ (i : Nat) (f : FilaPecas) (c : Int), Consistente f → f.quantidade + n ≤ 5 →
      -2147483648 ≤ c → c + n ≤ 2147483647 →
      ∃ f1 reg, preencherFilaInicialLoop rand n i f c = some (f1, c + n, reg) ∧
        Consistente f1 ∧ f1.quantidade = f.quantidade + n ∧
        reg.map (fun x => x.2) = List.replicate n 1 ∧
        reg.map (fun x => x.1.id) = (List.range n).map (fun j : Nat => c + (j : Int)) ∧
        conteudo f1 = conteudo f ++ reg.map (fun x => x.1) := by
  induction n with
  | zero =>
    intro i f c hc _ _ _
    exact ⟨f, [], by simp [preencherFilaInicialLoop], hc, by simp, rfl, rfl, by simp⟩
  | succ n ih =>
    intro i f c hc hq h1 h2
    simp only [Nat.cast_add, Nat.cast_one] at hq h2
    obtain ⟨f1, k, _, he, hc1, _, _, _, hq1, hcont⟩ :=
      enfileirar_passo f (gerarPeca (rand i) c).1 hc (by have := hc.quantidade_min; omega)
    have hg := gerarPeca_contador (rand i) c h1 (by omega)
    obtain ⟨f2, reg, hl, hc2, hq2, hr, hid, hcont2⟩ :=
      ih (i + 1) f1 (c + 1) hc1 (by omega) (by omega) (by omega)
    refine ⟨f2, ((gerarPeca (rand i) c).1, 1) :: reg, ?_, hc2, ?_, ?_, ?_, ?_⟩
    · have hcn : c + ((n + 1 : Nat) : Int) = c + 1 + (n : Int) := by
        simp only [Nat.cast_add, Nat.cast_one]; omega
      rw [hcn]
      simp only [preencherFilaInicialLoop, he, hg, hl]
    · simp only [Nat.cast_add, Nat.cast_one]; omega
    · simp only [List.map_cons, hr, List.replicate_succ]
    · simp only [List.map_cons, hid, List.range_succ_eq_map, List.map_map, gerarPeca_id]
      congr 1
      · simp
      · apply List.map_congr_left
        intro j _
        simp only [Function.comp, Nat.succ_eq_add_one, Nat.cast_add, Nat.cast_one]
        omega
    · rw [hcont2, hcont]; simp

theorem chamadasGerar_replicate (n r : Nat) :
    chamadasGerar (List.replicate n (Acao.gerar r)) = n := by
  induction n with
  | zero => rfl
  | succ n ih => simp only [List.replicate_succ, chamadasGerar, ih]

theorem executarAcoes_ids (acoes : List Acao) :
    ∀ e : Estado, Consistente e.fila → -2147483648 ≤ e.proximoId → e.proximoId ≤ 2147483647 →
      e.proximoId + chamadasGerar acoes ≤ 2147483648 →
      ∃ e1 evs, executarAcoes e acoes = some (e1, evs) ∧ Consistente e1.fila ∧
        evs.length = acoes.length ∧
        idsGerados evs
          = (List.range (chamadasGerar acoes)).map (fun j : Nat => e.proximoId + (j : Int)) ∧
        (e.proximoId + chamadasGerar acoes ≤ 2147483647 →
          e1.proximoId = e.proximoId + chamadasGerar acoes) := by
  induction acoes with
  | nil =>
    intro e hc _ _ _
    exact ⟨e, [], rfl, hc, rfl, rfl, by simp [chamadasGerar]⟩
  | cons a acoes ih =>
    intro e hc h1 h2 h3
    cases a with
    | gerar r =>
      simp only [chamadasGerar, Nat.cast_add, Nat.cast_one] at h3 ⊢
      by_cases hmax : e.proximoId = 2147483647
      · have hn : chamadasGerar acoes = 0 := by omega
        have hw : -2147483648 ≤ wrapInt (e.proximoId + 1) ∧
            wrapInt (e.proximoId + 1) ≤ 2147483647 := by
          unfold wrapInt; omega
        obtain ⟨e1, evs, he, hc1, hl, hid, _⟩ :=
          ih { fila := e.fila, proximoId := wrapInt (e.proximoId + 1) } hc hw.1 hw.2
            (by simp only [hn]; have := hw.2; omega)
        refine ⟨e1, Evento.gerada (gerarPeca r e.proximoId).1 :: evs, ?_, hc1, by simp [hl],
          ?_, ?_⟩
        · simp only [executarAcoes, passo, gerarPeca, he]
        · simp only [idsGerados, hid, hn, gerarPeca_id]
          simp [List.range_succ]
        · intro h; omega
      · have hg := gerarPeca_contador r e.proximoId h1 (by omega)
        obtain ⟨e1, evs, he, hc1, hl, hid, hfin⟩ :=
          ih { fila := e.fila, proximoId := e.proximoId + 1 } hc (by simp only; omega)
            (by simp only; omega) (by simp only; omega)
        refine ⟨e1, Evento.gerada (gerarPeca r e.proximoId).1 :: evs, ?_, hc1, by simp [hl],
          ?_, ?_⟩
        · simp only [executarAcoes, passo, hg, he]
        · simp only [idsGerados, hid, gerarPeca_id, List.range_succ_eq_map, List.map_cons,
            List.map_map]
          congr 1
          · simp
          · apply List.map_congr_left
            intro j _
            simp only [Function.comp, Nat.succ_eq_add_one, Nat.cast_add, Nat.cast_one]
            omega
        · intro h
          have := hfin (by simp only; omega)
          simp only at this
          omega
    | naFila op =>
      simp only [chamadasGerar] at h3 ⊢
      obtain ⟨f1, r, ha, hc1, _⟩ := aplicar_consistente e.fila op hc
      obtain ⟨e1, evs, he, hc2, hl, hid, hfin⟩ :=
        ih { fila := f1, proximoId := e.proximoId } hc1 h1 h2 h3
      exact ⟨e1, Evento.retorno r :: evs, by simp only [executarAcoes, passo, ha, he], hc2,
        by simp [hl], by simp only [idsGerados, hid], hfin⟩

theorem crescente_de (c : Int) (n : Nat) :
    List.Pairwise (fun a b : Int => a < b) ((List.range n).map (fun j : Nat => c + (j : Int))) := by
  rw [List.pairwise_map]
  exact List.Pairwise.imp (fun h => by omega) (List.pairwise_lt_range n)

theorem iteracoes_jogarInserir (n : Nat) :
    ∀ e : Estado, Consistente e.fila → e.fila.quantidade = 5 → -2147483648 ≤ e.proximoId →
      e.proximoId + n ≤ 2147483647 →
      ∃ e1, iteracoes e (jogarInserir n) = some e1 ∧ Consistente e1.fila ∧
        e1.fila.quantidade = 5 ∧ e1.proximoId = e.proximoId + n := by
  induction n with
  | zero =>
    intro e hc hq _ _
    exact ⟨e, rfl, hc, hq, by simp⟩
  | succ n ih =>
    intro e hc hq h1 h2
    simp only [Nat.cast_add, Nat.cast_one] at h2 ⊢
    obtain ⟨f1, p, hj, _, hc1, hq1⟩ := jogarPeca_passo e.fila ⟨'I', 0⟩ hc (by omega)
    obtain ⟨f2, hi, _, hc2, hq2⟩ := inserirNovaPeca_passo 0 f1 e.proximoId hc1 (by omega)
    have hg := gerarPeca_contador 0 e.proximoId h1 (by omega)
    obtain ⟨e1, he, hc3, hq3, hp3⟩ :=
      ih { fila := f2, proximoId := e.proximoId + 1 } hc2 (by simp only; omega)
        (by simp only; omega) (by simp only; omega)
    refine ⟨e1, ?_, hc3, hq3, ?_⟩
    · simp only [jogarInserir, iteracoes, iteracao, hj, hi, hg, he]
    · simp only at hp3
      omega

theorem principal_contador (f0 : FilaPecas) (rand : Nat → Nat) (n : Nat)
    (h : (5 : Int) + n ≤ 2147483647) :
    ∃ e, principal f0 rand (jogarInserir n) = some e ∧ Consistente e.fila ∧
      e.fila.quantidade = 5 ∧ e.proximoId = 5 + n := by
  obtain ⟨f1, reg, hl, hc1, hq1, _⟩ :=
    preencherFilaInicialLoop_consistente rand 5 0 (inicializarFila f0) 0
      (consistente_inicial f0) (by simp [inicializarFila]) (by decide) (by decide)
  obtain ⟨e, he, hc, hq, hp⟩ :=
    iteracoes_jogarInserir n { fila := f1, proximoId := 5 } hc1
      (by simp only [hq1, inicializarFila]; rfl) (by simp only; omega) h
  refine ⟨e, ?_, hc, hq, hp⟩
  simp only [principal, preencherFilaInicial, TAMANHO_FILA]
  rw [hl]
  simpa using he

/-! ## The claims -/

/-- Claim C1 (FIFO): for at most 5 pieces `p1 .. pN`, on a queue just set up by
`inicializarFila`, the calls `enfileirar(p1) .. enfileirar(pN)` all return 1, and the `N` calls
of `desenfileirar` that follow all return 1 and write `p1, .., pN` to the output parameter, in
that order. -/
theorem C1_fifo (f0 : FilaPecas) (ps : List Peca) (saida : Peca) (hN : ps.length ≤ 5) :
    ∃ f1 f2, enfileirarTodas (inicializarFila f0) ps = some (f1, List.replicate ps.length 1) ∧
      desenfileirarVezes ps.length f1 saida = some (f2, ps.map (fun p => ((1 : Int), p))) := by
  obtain ⟨f1, he, hc1, hq1, hcont1⟩ :=
    enfileirarTodas_consistente ps (inicializarFila f0) (consistente_inicial f0)
      (by simp only [inicializarFila]; omega)
  obtain ⟨f2, hd, _⟩ := desenfileirarVezes_consistente ps.length f1 saida hc1
    (by rw [hq1]; simp [inicializarFila])
  refine ⟨f1, f2, he, ?_⟩
  rw [hd, hcont1, conteudo_inicial]
  simp

theorem C1_fifo_witness :
    ∃ f1 f2,
      enfileirarTodas (inicializarFila filaBruta) [⟨'I', 7⟩, ⟨'I', 7⟩, ⟨'L', 2⟩]
        = some (f1, List.replicate [(⟨'I', 7⟩ : Peca), ⟨'I', 7⟩, ⟨'L', 2⟩].length 1) ∧
      desenfileirarVezes [(⟨'I', 7⟩ : Peca), ⟨'I', 7⟩, ⟨'L', 2⟩].length f1 ⟨'O', 9⟩
        = some (f2, [(⟨'I', 7⟩ : Peca), ⟨'I', 7⟩, ⟨'L', 2⟩].map (fun p => ((1 : Int), p))) :=
  C1_fifo filaBruta [⟨'I', 7⟩, ⟨'I', 7⟩, ⟨'L', 2⟩] ⟨'O', 9⟩ (by decide)

/-- Claim C2: on a queue with `quantidade == 5`, `enfileirar` returns 0 and the queue after the
call is the queue before it, field by field; hence `exibirFila` prints the same pieces. -/
theorem C2_enfileirar_cheia_rejeita (fila : FilaPecas) (peca : Peca)
    (h : fila.quantidade = 5) :
    ∃ fila1, enfileirar fila peca = some (fila1, 0) ∧ fila1 = fila ∧
      fila1.pecas = fila.pecas ∧ fila1.frente = fila.frente ∧ fila1.tras = fila.tras ∧
      fila1.quantidade = fila.quantidade ∧ exibirFila fila1 = exibirFila fila :=
  ⟨fila, enfileirar_cheia fila peca h, rfl, rfl, rfl, rfl, rfl, rfl⟩

theorem C2_enfileirar_cheia_rejeita_witness :
    filaLotada.quantidade = 5 ∧
    ∃ fila1, enfileirar filaLotada ⟨'I', 40⟩ = some (fila1, 0) ∧ fila1 = filaLotada ∧
      fila1.pecas = filaLotada.pecas ∧ fila1.frente = filaLotada.frente ∧
      fila1.tras = filaLotada.tras ∧ fila1.quantidade = filaLotada.quantidade ∧
      exibirFila fila1 = exibirFila filaLotada :=
  ⟨rfl, C2_enfileirar_cheia_rejeita filaLotada ⟨'I', 40⟩ rfl⟩

/-- Claim C3: on a queue with `quantidade == 0`, `desenfileirar` returns 0, leaves the output
parameter and every field of the queue as they were, `exibirFila` still prints no piece, and
the global `proximoId` keeps its value; in particular a dequeue right after `inicializarFila`
with `proximoId == 0` fails and `proximoId` is still 0. -/
theorem C3_desenfileirar_vazia_rejeita (fila : FilaPecas) (saida : Peca) (proximoId : Int)
    (h : fila.quantidade = 0) :
    (∃ fila1 saida1, desenfileirar fila saida = some (fila1, saida1, 0) ∧ saida1 = saida ∧
      fila1 = fila ∧ fila1.pecas = fila.pecas ∧ fila1.frente = fila.frente ∧
      fila1.tras = fila.tras ∧ fila1.quantidade = fila.quantidade ∧
      exibirFila fila = some [] ∧ exibirFila fila1 = some []) ∧
    passo ⟨fila, proximoId⟩ (Acao.naFila (Op.deq saida))
      = some (⟨fila, proximoId⟩, Evento.retorno 0) ∧
    ∀ f0 : FilaPecas, passo ⟨inicializarFila f0, 0⟩ (Acao.naFila (Op.deq saida))
      = some (⟨inicializarFila f0, 0⟩, Evento.retorno 0) := by
  have hv : exibirFila fila = some [] := by
    unfold exibirFila
    rw [if_pos ((filaVazia_eq fila).2 h)]
  refine ⟨⟨fila, saida, desenfileirar_vazia fila saida h, rfl, rfl, rfl, rfl, rfl, rfl, hv, hv⟩,
    ?_, ?_⟩
  · simp only [passo, aplicar, desenfileirar_vazia fila saida h]
  · intro f0
    simp only [passo, aplicar, desenfileirar_vazia (inicializarFila f0) saida rfl]

theorem C3_desenfileirar_vazia_rejeita_witness :
    filaEsgotada.quantidade = 0 ∧
    passo ⟨filaEsgotada, 12⟩ (Acao.naFila (Op.deq ⟨'T', 5⟩))
      = some (⟨filaEsgotada, 12⟩, Evento.retorno 0) :=
  ⟨rfl, (C3_desenfileirar_vazia_rejeita filaEsgotada ⟨'T', 5⟩ 12 rfl).2.1⟩

/-- Claim C4: on a reachable queue that is not full, `enfileirar` returns 1, adds 1 to
`quantidade`, keeps `frente`, and the pieces `exibirFila` prints afterwards are those it
printed before followed by the new piece. -/
theorem C4_enfileirar_acrescenta (fila : FilaPecas) (peca : Peca) (ha : Alcancavel fila)
    (hn : filaCheia fila = 0) :
    ∃ fila1 antes, enfileirar fila peca = some (fila1, 1) ∧
      fila1.quantidade = fila.quantidade + 1 ∧ fila1.frente = fila.frente ∧
      exibirFila fila = some antes ∧ exibirFila fila1 = some (antes ++ [peca]) := by
  have hc := alcancavel_consistente fila ha
  have hq : fila.quantidade ≠ 5 := fun hh => ((filaCheia_eq fila).2 hh) hn
  obtain ⟨f1, k, _, he, hc1, _, hf, _, hq1, hcont⟩ := enfileirar_passo fila peca hc hq
  exact ⟨f1, conteudo fila, he, hq1, hf, exibirFila_eq fila hc,
    by rw [exibirFila_eq f1 hc1, hcont]⟩

theorem C4_enfileirar_acrescenta_witness :
    filaCheia filaVolta = 0 ∧
    ∃ fila1 antes, enfileirar filaVolta ⟨'L', 8⟩ = some (fila1, 1) ∧
      fila1.quantidade = filaVolta.quantidade + 1 ∧ fila1.frente = filaVolta.frente ∧
      exibirFila filaVolta = some antes ∧ exibirFila fila1 = some (antes ++ [⟨'L', 8⟩]) :=
  ⟨by decide, C4_enfileirar_acrescenta filaVolta ⟨'L', 8⟩
    (depois_alcancavel _ opsVolta (Alcancavel.inicial filaBruta)) (by decide)⟩

/-- Claim C5: on a reachable queue that is not empty, `desenfileirar` returns 1, writes the
piece stored at index `frente` to the output parameter, sets `frente` to `(frente + 1) mod 5`,
subtracts 1 from `quantidade`, leaves `tras` and the array as they were, and the pieces
`exibirFila` prints before the call are the piece written followed by those it prints after. -/
theorem C5_desenfileirar_remove_frente (fila : FilaPecas) (saida : Peca)
    (ha : Alcancavel fila) (hn : filaVazia fila = 0) :
    ∃ fila1 k depoisDela, slot fila.frente = some k ∧
      desenfileirar fila saida = some (fila1, fila.pecas k, 1) ∧
      fila1.frente = (fila.frente + 1) % 5 ∧
      fila1.frente = Int.tmod (fila.frente + 1) 5 ∧
      fila1.quantidade = fila.quantidade - 1 ∧ fila1.tras = fila.tras ∧
      fila1.pecas = fila.pecas ∧
      exibirFila fila = some (fila.pecas k :: depoisDela) ∧
      exibirFila fila1 = some depoisDela := by
  have hc := alcancavel_consistente fila ha
  have hq : fila.quantidade ≠ 0 := fun hh => ((filaVazia_eq fila).2 hh) hn
  obtain ⟨f1, k, hs, he, hc1, hp, hf, ht, hq1, hcont⟩ := desenfileirar_passo fila saida hc hq
  refine ⟨f1, k, conteudo f1, hs, he, hf, ?_, hq1, ht, hp, ?_, exibirFila_eq f1 hc1⟩
  · rw [hf, Int.tmod_eq_emod (by have := hc.frente_min; omega) (by decide)]
  · rw [exibirFila_eq fila hc, hcont]

theorem C5_desenfileirar_remove_frente_witness :
    filaVazia filaVolta = 0 ∧
    ∃ fila1 k depoisDela, slot filaVolta.frente = some k ∧
      desenfileirar filaVolta ⟨'O', 1⟩ = some (fila1, filaVolta.pecas k, 1) ∧
      fila1.frente = (filaVolta.frente + 1) % 5 ∧
      fila1.frente = Int.tmod (filaVolta.frente + 1) 5 ∧
      fila1.quantidade = filaVolta.quantidade - 1 ∧ fila1.tras = filaVolta.tras ∧
      fila1.pecas = filaVolta.pecas ∧
      exibirFila filaVolta = some (filaVolta.pecas k :: depoisDela) ∧
      exibirFila fila1 = some depoisDela :=
  ⟨by decide, C5_desenfileirar_remove_frente filaVolta ⟨'O', 1⟩
    (depois_alcancavel _ opsVolta (Alcancavel.inicial filaBruta)) (by decide)⟩

/-- Claim C6: every finite sequence of `enfileirar` and `desenfileirar` calls on a queue just
set up by `inicializarFila` runs to its end; `quantidade` afterwards is the number of
`enfileirar` calls that returned 1 minus the number of `desenfileirar` calls that returned 1;
and after every prefix of the sequence `0 <= quantidade <= 5`. -/
theorem C6_contagem (f0 : FilaPecas) (ops : List Op) :
    (∃ f rets, executar (inicializarFila f0) ops = some (f, rets) ∧
      rets.length = ops.length ∧
      f.quantidade = (enfileiradas ops rets : Int) - (desenfileiradas ops rets : Int)) ∧
    ∀ n : Nat, ∃ f rets, executar (inicializarFila f0) (ops.take n) = some (f, rets) ∧
      0 ≤ f.quantidade ∧ f.quantidade ≤ 5 := by
  constructor
  · obtain ⟨f, rs, he, _, hl, hq⟩ :=
      executar_consistente ops (inicializarFila f0) (consistente_inicial f0)
    refine ⟨f, rs, he, hl, ?_⟩
    simp only [inicializarFila] at hq
    omega
  · intro n
    obtain ⟨f, rs, he, hc, _, _⟩ :=
      executar_consistente (ops.take n) (inicializarFila f0) (consistente_inicial f0)
    exact ⟨f, rs, he, hc.quantidade_min, hc.quantidade_max⟩

/-- Claim C7, amended: while the counter stays inside the range of `int`, identifiers are
unique and strictly increasing. Every call of `gerarPeca` returns a piece whose id is the value
of `proximoId` before the call, whatever number `rand()` returns, and advances `proximoId` by
exactly 1 when that value is below `INT_MAX`. For every sequence of calls of `gerarPeca`,
`enfileirar` and `desenfileirar` on a reachable queue, started with `proximoId = c` and holding
`n` calls of `gerarPeca` with `c + n <= INT_MAX + 1`, the sequence runs to its end, the ids
created are `c, c + 1, .., c + n - 1` in that order, hence strictly increasing and without
repetition, and the queue calls do not move the counter: it ends at `c + n` when
`c + n <= INT_MAX`. -/
theorem C7_ids_crescentes (e : Estado) (acoes : List Acao) (ha : Alcancavel e.fila)
    (hmin : INT_MIN ≤ e.proximoId) (hmax : e.proximoId ≤ INT_MAX)
    (hn : e.proximoId + chamadasGerar acoes ≤ INT_MAX + 1) :
    (∀ r : Nat, (gerarPeca r e.proximoId).1.id = e.proximoId) ∧
    (∀ r : Nat, e.proximoId < INT_MAX → (gerarPeca r e.proximoId).2 = e.proximoId + 1) ∧
    ∃ e1 evs, executarAcoes e acoes = some (e1, evs) ∧
      idsGerados evs
        = (List.range (chamadasGerar acoes)).map (fun j : Nat => e.proximoId + (j : Int)) ∧
      List.Pairwise (fun a b : Int => a < b) (idsGerados evs) ∧
      (idsGerados evs).Nodup ∧
      (e.proximoId + chamadasGerar acoes ≤ INT_MAX →
        e1.proximoId = e.proximoId + chamadasGerar acoes) := by
  simp only [INT_MIN, INT_MAX] at hmin hmax hn ⊢
  refine ⟨fun r => rfl, fun r h => gerarPeca_contador r e.proximoId hmin h, ?_⟩
  obtain ⟨e1, evs, he, _, _, hid, hfin⟩ :=
    executarAcoes_ids acoes e (alcancavel_consistente e.fila ha) hmin hmax (by omega)
  have hp := crescente_de e.proximoId (chamadasGerar acoes)
  rw [← hid] at hp
  exact ⟨e1, evs, he, hid, hp, List.Pairwise.imp (fun h => Int.ne_of_lt h) hp, hfin⟩

theorem C7_ids_crescentes_witness :
    (gerarPeca 3 2147483645).1.id = 2147483645 ∧
    (gerarPeca 3 2147483645).2 = 2147483645 + 1 ∧
    ∃ e1 evs,
      executarAcoes ⟨filaVolta, 2147483645⟩
        [Acao.gerar 3, Acao.naFila (Op.enq ⟨'L', 2147483645⟩), Acao.gerar 6,
         Acao.naFila (Op.deq ⟨'I', 0⟩)] = some (e1, evs) ∧
      idsGerados evs = [2147483645, 2147483646] ∧ e1.proximoId = 2147483647 := by
  obtain ⟨h1, h2, e1, evs, he, hid, _, _, hfin⟩ :=
    C7_ids_crescentes ⟨filaVolta, 2147483645⟩
      [Acao.gerar 3, Acao.naFila (Op.enq ⟨'L', 2147483645⟩), Acao.gerar 6,
       Acao.naFila (Op.deq ⟨'I', 0⟩)]
      (depois_alcancavel _ opsVolta (Alcancavel.inicial filaBruta))
      (by decide) (by decide) (by decide)
  exact ⟨h1 3, h2 3 (by decide), e1, evs, he, by rw [hid]; decide,
    by rw [hfin (by decide)]; decide⟩

/-- Claim C7 as stated fails at the end of the range of `int`: from `proximoId = 0`,
2147483647 calls of `gerarPeca` bring the counter to 2147483647; the next call does not advance
it by 1 but sets it to -2147483648, and the piece created after that has a smaller id than the
piece created before it. -/
theorem C7_contraexemplo :
    (∃ e evs, executarAcoes ⟨inicializarFila filaBruta, 0⟩
        (List.replicate 2147483647 (Acao.gerar 0)) = some (e, evs) ∧
      e.proximoId = 2147483647) ∧
    (gerarPeca 0 2147483647).1.id = 2147483647 ∧
    (gerarPeca 0 2147483647).2 = -2147483648 ∧
    (gerarPeca 0 2147483647).2 ≠ 2147483647 + 1 ∧
    (gerarPeca 0 (gerarPeca 0 2147483647).2).1.id < (gerarPeca 0 2147483647).1.id := by
  refine ⟨?_, by decide, by decide, by decide, by decide⟩
  obtain ⟨e, evs, he, _, _, _, hfin⟩ :=
    executarAcoes_ids (List.replicate 2147483647 (Acao.gerar 0))
      ⟨inicializarFila filaBruta, 0⟩ (consistente_inicial filaBruta) (by simp) (by simp)
      (by rw [chamadasGerar_replicate]; simp)
  rw [chamadasGerar_replicate] at hfin
  exact ⟨e, evs, he, by simpa using hfin (by simp)⟩

/-- Claim C8, amended: for every reachable queue, if the queue is full then `inserirNovaPeca`
leaves `proximoId` and the whole queue unchanged and reports no piece; if the queue is not full
then the pieces `exibirFila` prints become the previous ones followed by one new piece whose id
is the previous value of `proximoId`, and `proximoId` advances by exactly 1 provided its
previous value is below `INT_MAX`. -/
theorem C8_inserir_consome_id (r : Nat) (fila : FilaPecas) (proximoId : Int)
    (ha : Alcancavel fila) :
    (filaCheia fila ≠ 0 → ∃ mostradas,
      inserirNovaPeca r fila proximoId = some (fila, proximoId, none, mostradas) ∧
      exibirFila fila = some mostradas) ∧
    (filaCheia fila = 0 → ∃ fila1 proximoId1 nova antes,
      inserirNovaPeca r fila proximoId
        = some (fila1, proximoId1, some nova, antes ++ [nova]) ∧
      nova.id = proximoId ∧ exibirFila fila = some antes ∧
      exibirFila fila1 = some (antes ++ [nova]) ∧
      (INT_MIN ≤ proximoId → proximoId < INT_MAX → proximoId1 = proximoId + 1)) := by
  have hc := alcancavel_consistente fila ha
  constructor
  · intro hf
    exact ⟨conteudo fila, inserirNovaPeca_cheia r fila proximoId hc ((filaCheia_eq fila).1 hf),
      exibirFila_eq fila hc⟩
  · intro hf
    have hq : fila.quantidade ≠ 5 := fun hh => ((filaCheia_eq fila).2 hh) hf
    obtain ⟨f1, hi, hcont, hc1, _⟩ := inserirNovaPeca_passo r fila proximoId hc hq
    refine ⟨f1, (gerarPeca r proximoId).2, (gerarPeca r proximoId).1, conteudo fila, ?_, rfl,
      exibirFila_eq fila hc, ?_, ?_⟩
    · rw [hi, hcont]
    · rw [exibirFila_eq f1 hc1, hcont]
    · intro h1 h2
      simp only [INT_MIN, INT_MAX] at h1 h2
      exact gerarPeca_contador r proximoId h1 h2

theorem C8_inserir_consome_id_witness :
    (∃ fila1 proximoId1 nova antes,
      inserirNovaPeca 2 filaVolta 7 = some (fila1, proximoId1, some nova, antes ++ [nova]) ∧
      nova.id = 7 ∧ exibirFila filaVolta = some antes ∧
      exibirFila fila1 = some (antes ++ [nova]) ∧ proximoId1 = 7 + 1) ∧
    (∃ mostradas,
      inserirNovaPeca 2 (depois filaVolta [Op.enq ⟨'L', 7⟩]) 8
        = some (depois filaVolta [Op.enq ⟨'L', 7⟩], 8, none, mostradas) ∧
      exibirFila (depois filaVolta [Op.enq ⟨'L', 7⟩]) = some mostradas) := by
  constructor
  · obtain ⟨f1, c1, nova, antes, h1, h2, h3, h4, h5⟩ :=
      (C8_inserir_consome_id 2 filaVolta 7
        (depois_alcancavel _ opsVolta (Alcancavel.inicial filaBruta))).2 (by decide)
    exact ⟨f1, c1, nova, antes, h1, h2, h3, h4, h5 (by decide) (by decide)⟩
  · exact (C8_inserir_consome_id 2 (depois filaVolta [Op.enq ⟨'L', 7⟩]) 8
      (depois_alcancavel _ _ (depois_alcancavel _ opsVolta (Alcancavel.inicial filaBruta)))).1
      (by decide)

/-- Claim C8 as stated fails at the end of the range of `int`: on a fresh (reachable, not full)
queue with `proximoId = 2147483647`, `inserirNovaPeca` sets `proximoId` to -2147483648, not to
2147483648; and `main` reaches such a state: after the initial fill and 2147483642 rounds of
"play, insert" the counter is 2147483647, one more play leaves the queue not full, and the
insert that follows sets the counter to -2147483648. -/
theorem C8_contraexemplo :
    (Alcancavel (inicializarFila filaBruta) ∧ filaCheia (inicializarFila filaBruta) = 0 ∧
      (inserirNovaPeca 0 (inicializarFila filaBruta) 2147483647).map (fun x => x.2.1)
        = some (-2147483648) ∧
      (-2147483648 : Int) ≠ 2147483647 + 1) ∧
    ∃ e f1 jogada m1, principal filaBruta (fun _ => 0) (jogarInserir 2147483642) = some e ∧
      e.proximoId = 2147483647 ∧ jogarPeca e.fila ⟨'I', 0⟩ = some (f1, jogada, m1) ∧
      filaCheia f1 = 0 ∧
      ∃ f2 nova m2, inserirNovaPeca 0 f1 e.proximoId = some (f2, -2147483648, nova, m2) := by
  refine ⟨⟨Alcancavel.inicial filaBruta, by decide, by decide, by decide⟩, ?_⟩
  obtain ⟨e, he, hc, hq, hp⟩ :=
    principal_contador filaBruta (fun _ => 0) 2147483642 (by simp)
  obtain ⟨f1, p, hj, _, hc1, hq1⟩ := jogarPeca_passo e.fila ⟨'I', 0⟩ hc (by omega)
  have hq5 : f1.quantidade ≠ 5 := by omega
  obtain ⟨f2, hi, _⟩ := inserirNovaPeca_passo 0 f1 e.proximoId hc1 hq5
  have hp2 : e.proximoId = 2147483647 := by simpa using hp
  refine ⟨e, f1, some p, conteudo f1, he, hp2, hj, ?_, f2, some (gerarPeca 0 2147483647).1,
    conteudo f2, ?_⟩
  · exact filaCheia_nao f1 hq5
  · rw [hi, hp2]
    rfl

/-- Claim C9 (session scenario), for every outcome of the draws and every previous content of
the memory: with `proximoId == 0`, `inicializarFila` then `preencherFilaInicial` give a full
queue, all five `enfileirar` calls returning 1, with ids 0..4 and `proximoId == 5`; `jogarPeca`
then plays the piece with id 0 and leaves ids 1..4; `inserirNovaPeca` then creates the piece
with id 5, leaves ids 1..5 and `proximoId == 6`; a second `inserirNovaPeca` reports no piece
and leaves the queue, the pieces shown and `proximoId == 6` as they were. -/
theorem C9_sessao (f0 : FilaPecas) (rand : Nat → Nat) (pecaJogada : Peca) (r5 r6 : Nat) :
    ∃ f1 registo f2 p0 m2 f3 p5 m3,
      preencherFilaInicial rand (inicializarFila f0) 0 = some (f1, 5, registo) ∧
      registo.map (fun x => x.2) = [1, 1, 1, 1, 1] ∧
      registo.map (fun x => x.1.id) = [0, 1, 2, 3, 4] ∧
      f1.quantidade = 5 ∧ filaCheia f1 = 1 ∧
      (exibirFila f1).map (List.map Peca.id) = some [0, 1, 2, 3, 4] ∧
      jogarPeca f1 pecaJogada = some (f2, some p0, m2) ∧ p0.id = 0 ∧
      exibirFila f2 = some m2 ∧ m2.map Peca.id = [1, 2, 3, 4] ∧
      inserirNovaPeca r5 f2 5 = some (f3, 6, some p5, m3) ∧ p5.id = 5 ∧
      exibirFila f3 = some m3 ∧ m3.map Peca.id = [1, 2, 3, 4, 5] ∧
      inserirNovaPeca r6 f3 6 = some (f3, 6, none, m3) := by
  obtain ⟨f1, reg, hl, hc1, hq1, hr, hid, hcont1⟩ :=
    preencherFilaInicialLoop_consistente rand 5 0 (inicializarFila f0) 0
      (consistente_inicial f0) (by simp [inicializarFila]) (by decide) (by decide)
  have hq1' : f1.quantidade = 5 := by rw [hq1]; rfl
  have hids1 : (conteudo f1).map Peca.id = [0, 1, 2, 3, 4] := by
    rw [hcont1, conteudo_inicial, List.nil_append, List.map_map]
    exact hid
  obtain ⟨f2, p0, hj, hcont2, hc2, hq2⟩ := jogarPeca_passo f1 pecaJogada hc1 (by omega)
  rw [hcont2, List.map_cons] at hids1
  have hp0 : p0.id = 0 := (List.cons.inj hids1).1
  have hids2 : (conteudo f2).map Peca.id = [1, 2, 3, 4] := (List.cons.inj hids1).2
  obtain ⟨f3, hi, hcont3, hc3, hq3⟩ := inserirNovaPeca_passo r5 f2 5 hc2 (by omega)
  have hg : (gerarPeca r5 5).2 = 6 := gerarPeca_contador r5 5 (by decide) (by decide)
  have hids3 : (conteudo f3).map Peca.id = [1, 2, 3, 4, 5] := by
    rw [hcont3, List.map_append, hids2]
    rfl
  refine ⟨f1, reg, f2, p0, conteudo f2, f3, (gerarPeca r5 5).1, conteudo f3, ?_, hr, hid, hq1',
    ?_, ?_, hj, hp0, exibirFila_eq f2 hc2, hids2, ?_, rfl, exibirFila_eq f3 hc3, hids3, ?_⟩
  · simpa [preencherFilaInicial] using hl
  · exact filaCheia_sim f1 hq1'
  · rw [exibirFila_eq f1 hc1, Option.map_some', hcont2, List.map_cons, hp0, hids2]
  · rw [hi, hg]
  · exact inserirNovaPeca_cheia r6 f3 6 hc3 (by omega)

/-- Claim C10: in every queue reachable from `inicializarFila` by `enfileirar` and
`desenfileirar` calls, `0 <= frente <= 4`, `-1 <= tras <= 4`, `0 <= quantidade <= 5` and
`(tras + 1) mod 5 == (frente + quantidade) mod 5`; when the queue holds a piece, `tras` is the
last index of the circular run of `quantidade` slots that starts at `frente`, and `exibirFila`
reads exactly that run; the write `pecas[tras]` of `enfileirar` and the read `pecas[frente]` of
`desenfileirar` address a slot of the array; and whatever calls follow, they run to their end
and the run then holds exactly the pieces the specified FIFO queue holds (the occupied
slots). -/
theorem C10_indices_consistentes (fila : FilaPecas) (ha : Alcancavel fila) :
    (0 ≤ fila.frente ∧ fila.frente ≤ 4) ∧ (-1 ≤ fila.tras ∧ fila.tras ≤ 4) ∧
    (0 ≤ fila.quantidade ∧ fila.quantidade ≤ 5) ∧
    (fila.tras + 1) % 5 = (fila.frente + fila.quantidade) % 5 ∧
    Int.tmod (fila.tras + 1) 5 = Int.tmod (fila.frente + fila.quantidade) 5 ∧
    (0 < fila.quantidade → fila.tras = (fila.frente + fila.quantidade - 1) % 5) ∧
    exibirFila fila = some (circular fila.pecas fila.frente.toNat fila.quantidade.toNat) ∧
    (∀ peca, filaCheia fila = 0 → ∃ k fila1,
      slot (Int.tmod (wrapInt (fila.tras + 1)) (TAMANHO_FILA : Int)) = some k ∧
      enfileirar fila peca = some (fila1, 1) ∧ fila1.tras = (k.val : Int) ∧
      fila1.pecas k = peca) ∧
    (∀ saida, filaVazia fila = 0 → ∃ k fila1,
      slot fila.frente = some k ∧ (k.val : Int) = fila.frente ∧
      desenfileirar fila saida = some (fila1, fila.pecas k, 1)) ∧
    (∀ ops : List Op, ∃ fila1 rets, executar fila ops = some (fila1, rets) ∧
      circular fila1.pecas fila1.frente.toNat fila1.quantidade.toNat
        = filaEspecificada (circular fila.pecas fila.frente.toNat fila.quantidade.toNat)
            ops) := by
  have hc := alcancavel_consistente fila ha
  have ⟨h1, h2, h3, h4, h5, h6, h7, h8⟩ := hc
  refine ⟨⟨h1, h2⟩, ⟨h3, h4⟩, ⟨h5, h6⟩, h7, ?_, ?_, exibirFila_eq fila hc, ?_, ?_, ?_⟩
  · rw [Int.tmod_eq_emod (by omega) (by decide), Int.tmod_eq_emod (by omega) (by decide)]
    exact h7
  · intro hq
    omega
  · intro peca hn
    have hq : fila.quantidade ≠ 5 := fun hh => ((filaCheia_eq fila).2 hh) hn
    obtain ⟨f1, k, hs, he, _, hp, _, ht, _, _⟩ := enfileirar_passo fila peca hc hq
    refine ⟨k, f1, ?_, he, ?_, ?_⟩
    · rw [avanca_eq fila.tras h3 h4]; exact hs
    · rw [slot_eq _ (by omega) (by omega)] at hs
      rw [ht, ← Option.some.inj hs]
      simp only
      omega
    · rw [hp, Function.update_same]
  · intro saida hn
    have hq : fila.quantidade ≠ 0 := fun hh => ((filaVazia_eq fila).2 hh) hn
    obtain ⟨f1, k, hs, he, _⟩ := desenfileirar_passo fila saida hc hq
    refine ⟨k, f1, hs, ?_, he⟩
    rw [slot_eq _ h1 h2] at hs
    rw [← Option.some.inj hs]
    simp only
    omega
  · intro ops
    obtain ⟨f1, rs, he, _, hcont⟩ := executar_especificada ops fila hc
    exact ⟨f1, rs, he, hcont⟩

theorem C10_indices_consistentes_witness :
    (0 ≤ filaVolta.frente ∧ filaVolta.frente ≤ 4) ∧
    (-1 ≤ filaVolta.tras ∧ filaVolta.tras ≤ 4) ∧
    (0 ≤ filaVolta.quantidade ∧ filaVolta.quantidade ≤ 5) ∧
    (filaVolta.tras + 1) % 5 = (filaVolta.frente + filaVolta.quantidade) % 5 ∧
    filaVolta.tras = (filaVolta.frente + filaVolta.quantidade - 1) % 5 ∧
    (∃ k fila1,
      slot (Int.tmod (wrapInt (filaVolta.tras + 1)) (TAMANHO_FILA : Int)) = some k ∧
      enfileirar filaVolta ⟨'L', 8⟩ = some (fila1, 1) ∧ fila1.tras = (k.val : Int) ∧
      fila1.pecas k = ⟨'L', 8⟩) ∧
    (∃ k fila1,
      slot filaVolta.frente = some k ∧ (k.val : Int) = filaVolta.frente ∧
      desenfileirar filaVolta ⟨'O', 1⟩ = some (fila1, filaVolta.pecas k, 1)) :=
  let h := C10_indices_consistentes filaVolta
    (depois_alcancavel _ opsVolta (Alcancavel.inicial filaBruta))
  ⟨h.1, h.2.1, h.2.2.1, h.2.2.2.1, h.2.2.2.2.2.1 (by decide),
    h.2.2.2.2.2.2.2.1 ⟨'L', 8⟩ (by decide), h.2.2.2.2.2.2.2.2.1 ⟨'O', 1⟩ (by decide)⟩

end Tetris
